import Mathlib

/-!
Verification of `fvhiot/database/influxdb.py`.

The file shallowly embeds the pure parts of the module:

* Python `dict`s are modelled as insertion-ordered association lists
  (`List (String × _)`); a well-formed dict has no duplicate keys.
* CPython `float`s are modelled as exact rational values of IEEE-754 binary64
  numbers; `roundDouble` implements round-to-nearest, ties-to-even on `ℚ`
  (returning `none` on overflow, the case where CPython raises
  `OverflowError` when converting an `int`).
* A timezone-aware `datetime` is modelled as its instant: the integer count
  of microseconds since the Unix epoch (CPython `datetime` has microsecond
  resolution, and `astimezone` does not change the instant).
* The wall clock read by `time.time()` / `datetime.now()` when `timestamp`
  is `None` is passed in as an explicit `now` argument.
* Mutation of caller-supplied dicts is modelled by returning the post-call
  state of those dicts alongside the function result.
-/

set_option maxRecDepth 8000
set_option exponentiation.threshold 2100

namespace FVHIoT

/-- `2 ^ k` in `ℚ` for an integer (possibly negative) exponent,
written with `Nat` powers so that the kernel can evaluate it fast. -/
def qpow2 (k : ℤ) : ℚ :=
  if 0 ≤ k then ((2 ^ k.toNat : ℕ) : ℚ) else 1 / ((2 ^ (-k).toNat : ℕ) : ℚ)

theorem qpow2_eq_zpow (k : ℤ) : qpow2 k = (2 : ℚ) ^ k := by
  unfold qpow2
  split
  · next h =>
    push_cast
    rw [← zpow_natCast, Int.toNat_of_nonneg h]
  · next h =>
    push_cast
    rw [one_div, ← zpow_natCast, Int.toNat_of_nonneg (by omega : (0:ℤ) ≤ -k),
      ← zpow_neg, neg_neg]

theorem qpow2_pos (k : ℤ) : 0 < qpow2 k := by
  rw [qpow2_eq_zpow]; positivity

theorem qpow2_add (j k : ℤ) : qpow2 (j + k) = qpow2 j * qpow2 k := by
  rw [qpow2_eq_zpow, qpow2_eq_zpow, qpow2_eq_zpow, zpow_add₀ (by norm_num : (2:ℚ) ≠ 0)]

theorem qpow2_lt_qpow2 {j k : ℤ} (h : qpow2 j < qpow2 k) : j < k := by
  rw [qpow2_eq_zpow, qpow2_eq_zpow] at h
  exact (zpow_lt_zpow_iff_right₀ (by norm_num : (1:ℚ) < 2)).mp h

/-- Round a rational to the nearest integer, ties to even
(the rounding used when CPython converts exact values to binary64). -/
def roundTiesEvenZ (q : ℚ) : ℤ :=
  if q - (⌊q⌋ : ℚ) < 1 / 2 then ⌊q⌋
  else if 1 / 2 < q - (⌊q⌋ : ℚ) then ⌊q⌋ + 1
  else if ⌊q⌋ % 2 = 0 then ⌊q⌋ else ⌊q⌋ + 1

theorem roundTiesEvenZ_intCast (z : ℤ) : roundTiesEvenZ (z : ℚ) = z := by
  unfold roundTiesEvenZ
  simp

/-- `Nat.log 2` by structural recursion on a fuel argument, so that the
kernel can evaluate it (`Nat.log` itself is defined by well-founded
recursion, which the kernel does not reduce). -/
def log2fuel : ℕ → ℕ → ℕ
  | 0, _ => 0
  | fuel + 1, n => if 2 ≤ n then log2fuel fuel (n / 2) + 1 else 0

def natLog2 (n : ℕ) : ℕ := log2fuel n n

theorem log2fuel_eq_log (fuel n : ℕ) (h : n ≤ fuel) : log2fuel fuel n = Nat.log 2 n := by
  induction fuel generalizing n with
  | zero =>
    have : n = 0 := by omega
    subst this
    simp [log2fuel]
  | succ fuel ih =>
    unfold log2fuel
    split
    · next h2 =>
      have hdiv : n / 2 ≤ fuel := by omega
      rw [ih _ hdiv, Nat.log_of_one_lt_of_le (by norm_num) h2]
    · next h2 =>
      rw [Nat.log_of_lt (by omega)]

theorem natLog2_eq_log (n : ℕ) : natLog2 n = Nat.log 2 n :=
  log2fuel_eq_log n n le_rfl

/-- Candidate for the base-2 logarithm of a positive rational, off by at
most one from the true floor. -/
def ilog2cand (a : ℚ) : ℤ := (natLog2 a.num.natAbs : ℤ) - (natLog2 a.den : ℤ)

/-- Floor of the base-2 logarithm of a positive rational. -/
def ilog2q (a : ℚ) : ℤ :=
  if a < qpow2 (ilog2cand a) then ilog2cand a - 1 else ilog2cand a

theorem qpow2_ilog2q_le {a : ℚ} (ha : 0 < a) : qpow2 (ilog2q a) ≤ a := by
  unfold ilog2q
  split
  · next hlt =>
    -- the candidate overshoots; show `2 ^ (c - 1) ≤ a`
    have hnum : (0 : ℤ) < a.num := Rat.num_pos.mpr ha
    have hnum' : a.num.natAbs ≠ 0 := by omega
    have hden : (0 : ℕ) < a.den := a.pos
    have h1 : (2 : ℕ) ^ Nat.log 2 a.num.natAbs ≤ a.num.natAbs :=
      Nat.pow_log_le_self 2 hnum'
    have h2 : a.den < 2 ^ (Nat.log 2 a.den).succ :=
      Nat.lt_pow_succ_log_self (by norm_num) a.den
    unfold ilog2cand
    rw [natLog2_eq_log, natLog2_eq_log]
    set l1 := Nat.log 2 a.num.natAbs with hl1
    set l2 := Nat.log 2 a.den with hl2
    have ha' : a = (a.num : ℚ) / (a.den : ℚ) := (Rat.num_div_den a).symm
    have hnum_ge : ((2 ^ l1 : ℕ) : ℚ) ≤ (a.num : ℚ) := by
      have := h1
      have habs : (a.num.natAbs : ℤ) = a.num := by omega
      exact_mod_cast (by exact_mod_cast (habs ▸ (by exact_mod_cast h1 : ((2:ℤ) ^ l1) ≤ (a.num.natAbs : ℤ))) : ((2:ℤ) ^ l1) ≤ a.num)
    have hden_le : ((a.den : ℕ) : ℚ) ≤ ((2 ^ (l2 + 1) : ℕ) : ℚ) := by
      exact_mod_cast Nat.le_of_lt h2
    have hden_pos : (0 : ℚ) < (a.den : ℚ) := by exact_mod_cast hden
    have hfrac : ((2 ^ l1 : ℕ) : ℚ) / ((2 ^ (l2 + 1) : ℕ) : ℚ) ≤ a := by
      rw [ha']
      exact div_le_div₀ (by positivity) hnum_ge hden_pos hden_le
    have hpow : qpow2 ((l1 : ℤ) - (l2 : ℤ) - 1) =
        ((2 ^ l1 : ℕ) : ℚ) / ((2 ^ (l2 + 1) : ℕ) : ℚ) := by
      rw [qpow2_eq_zpow]
      push_cast
      rw [← zpow_natCast (2:ℚ) l1, ← zpow_natCast (2:ℚ) (l2 + 1),
        ← zpow_sub₀ (by norm_num : (2:ℚ) ≠ 0)]
      congr 1
      push_cast
      ring
    rw [hpow]
    exact hfrac
  · next hge =>
    exact le_of_not_lt hge

/-- The binary64 grid exponent at magnitude `a`: the value is rounded to a
multiple of `2 ^ dgrid a` (with the subnormal cutoff at `2 ^ (-1074)`). -/
def dgrid (a : ℚ) : ℤ := max (ilog2q a - 52) (-1074)

/-- Round the positive magnitude `a` onto the binary64 grid. -/
def dround (a : ℚ) : ℚ := (roundTiesEvenZ (a / qpow2 (dgrid a)) : ℚ) * qpow2 (dgrid a)

/-- Round a rational to the nearest IEEE-754 binary64 value
(round-to-nearest, ties-to-even, subnormals included); `none` encodes
overflow (a result of magnitude at least `2 ^ 1024`, where CPython's
int-to-float conversion raises `OverflowError`). -/
def roundDouble (q : ℚ) : Option ℚ :=
  if q = 0 then some 0
  else if qpow2 1024 ≤ dround |q| then none
  else some (if q < 0 then -dround |q| else dround |q|)

/-- A positive value of the form `m * 2 ^ t` with `m < 2 ^ 53` (and the
exponent at or above the subnormal grid) is exactly representable:
rounding leaves it unchanged. -/
theorem dround_exact (m t : ℤ) (hm : 0 < m) (hm53 : m < 2 ^ 53)
    (ht : -1074 ≤ t) : dround ((m : ℚ) * qpow2 t) = (m : ℚ) * qpow2 t := by
  have hq2 : 0 < qpow2 t := qpow2_pos t
  have hqpos : (0 : ℚ) < (m : ℚ) * qpow2 t := by
    apply mul_pos _ hq2
    exact_mod_cast hm
  set a : ℚ := (m : ℚ) * qpow2 t with ha
  -- `2 ^ (ilog2q a) ≤ a < 2 ^ (53 + t)` forces the grid to sit at or below `t`
  have hupper : a < qpow2 (53 + t) := by
    rw [ha, qpow2_add]
    apply mul_lt_mul_of_pos_right _ hq2
    have : qpow2 53 = ((2 ^ 53 : ℤ) : ℚ) := by decide
    rw [this]
    exact_mod_cast hm53
  have hlower : qpow2 (ilog2q a) ≤ a := qpow2_ilog2q_le hqpos
  have het : ilog2q a - 52 ≤ t := by
    have := qpow2_lt_qpow2 (lt_of_le_of_lt hlower hupper)
    omega
  have hgt : dgrid a ≤ t := by
    unfold dgrid
    omega
  -- `a / 2 ^ (dgrid a)` is the integer `m * 2 ^ (t - dgrid a)`
  have hint : a / qpow2 (dgrid a) = ((m * 2 ^ (t - dgrid a).toNat : ℤ) : ℚ) := by
    push_cast
    rw [← zpow_natCast (2:ℚ) (t - dgrid a).toNat,
      Int.toNat_of_nonneg (by omega : (0:ℤ) ≤ t - dgrid a)]
    rw [div_eq_iff (ne_of_gt (qpow2_pos (dgrid a)))]
    rw [qpow2_eq_zpow, mul_assoc, ← zpow_add₀ (by norm_num : (2:ℚ) ≠ 0)]
    rw [ha, qpow2_eq_zpow]
    ring_nf
  unfold dround
  rw [hint, roundTiesEvenZ_intCast, ← hint, div_mul_cancel₀]
  exact ne_of_gt (qpow2_pos (dgrid a))

theorem roundDouble_exact (m t : ℤ) (hm : 0 < m) (hm53 : m < 2 ^ 53)
    (ht : -1074 ≤ t) (hr : (m : ℚ) * qpow2 t < qpow2 1024) :
    roundDouble ((m : ℚ) * qpow2 t) = some ((m : ℚ) * qpow2 t) := by
  have hq2 : 0 < qpow2 t := qpow2_pos t
  have hqpos : (0 : ℚ) < (m : ℚ) * qpow2 t := by
    apply mul_pos _ hq2
    exact_mod_cast hm
  have habs : |(m : ℚ) * qpow2 t| = (m : ℚ) * qpow2 t := abs_of_pos hqpos
  unfold roundDouble
  rw [if_neg (ne_of_gt hqpos), habs, dround_exact m t hm hm53 ht,
    if_neg (not_le_of_lt hr), if_neg (not_lt_of_le (le_of_lt hqpos))]

/-- Truncation toward zero, as CPython `int()` applied to a float. -/
def truncQ (q : ℚ) : ℤ := if 0 ≤ q then ⌊q⌋ else ⌈q⌉

theorem truncQ_intCast (z : ℤ) : truncQ (z : ℚ) = z := by
  unfold truncQ
  split <;> simp

/-- `10 ^ k` in `ℚ` for an integer exponent. -/
def qpow10 (k : ℤ) : ℚ :=
  if 0 ≤ k then ((10 ^ k.toNat : ℕ) : ℚ) else 1 / ((10 ^ (-k).toNat : ℕ) : ℚ)

/-- `Nat.log b` by structural recursion on a fuel argument
(kernel-evaluable, unlike the well-founded `Nat.log`). -/
def logFuel (b : ℕ) : ℕ → ℕ → ℕ
  | 0, _ => 0
  | fuel + 1, n => if 2 ≤ b ∧ b ≤ n then logFuel b fuel (n / b) + 1 else 0

def natLog10 (n : ℕ) : ℕ := logFuel 10 n n

/-- Floor of the base-10 logarithm of a positive rational (used only for
rendering floats, never in a proved property). -/
def ilog10q (a : ℚ) : ℤ :=
  let c : ℤ := (natLog10 a.num.natAbs : ℤ) - (natLog10 a.den : ℤ)
  if a < qpow10 (c - 1) then c - 2
  else if a < qpow10 c then c - 1
  else if a < qpow10 (c + 1) then c
  else c + 1

/-!
## Python values and `float()` conversion

`PyVal` covers the value shapes relevant to the claims: Python ints,
floats, strings and `None`.  `pyFloatConv` models the CPython builtin
`float(...)` applied to such a value:

* `float(int)` rounds to the nearest binary64, raising `OverflowError`
  when the magnitude reaches `2 ^ 1024`;
* `float(float)` is the identity;
* `float(str)` parses a decimal literal (`pyParseFloat` models the plain
  sign/digits/fraction/exponent subset of CPython's grammar; CPython
  additionally accepts surrounding whitespace, `_` digit separators and
  `inf`/`nan` words, and returns an infinity instead of an error for
  finite decimals of magnitude at least `2 ^ 1024` — no claim depends on
  those corners, which a `ℚ`-valued model cannot represent);
* `float(None)` raises `TypeError`.
-/

inductive PyErr where
  | valueError
  | typeError
  | overflowError
deriving DecidableEq

inductive PyVal where
  | intV (n : ℤ)
  | floatV (q : ℚ)
  | strV (s : String)
  | noneV
deriving DecidableEq

/-- Take the leading decimal digits off a character list. -/
def takeDigits : List Char → List ℕ × List Char
  | [] => ([], [])
  | c :: cs =>
    if '0' ≤ c ∧ c ≤ '9' then
      ((takeDigits cs).1.cons (c.toNat - 48), (takeDigits cs).2)
    else ([], c :: cs)

def digitsToNat (ds : List ℕ) : ℕ := ds.foldl (fun acc d => acc * 10 + d) 0

/-- The decimal-literal subset of the CPython `float(str)` grammar:
optional sign, integer digits, optional fraction, optional exponent. -/
def pyParseFloat (s : String) : Option ℚ :=
  let p0 : ℚ × List Char :=
    match s.data with
    | '+' :: r => (1, r)
    | '-' :: r => (-1, r)
    | r => (1, r)
  let ip := takeDigits p0.2
  let fp : List ℕ × List Char :=
    match ip.2 with
    | '.' :: r => takeDigits r
    | r => ([], r)
  if ip.1.isEmpty ∧ fp.1.isEmpty then none
  else
    let mant : ℚ := (digitsToNat ip.1 : ℚ) + (digitsToNat fp.1 : ℚ) / ((10 ^ fp.1.length : ℕ) : ℚ)
    match fp.2 with
    | [] => some (p0.1 * mant)
    | e :: r =>
      if e = 'e' ∨ e = 'E' then
        let es : ℤ × List Char :=
          match r with
          | '+' :: r2 => (1, r2)
          | '-' :: r2 => (-1, r2)
          | r2 => (1, r2)
        let ed := takeDigits es.2
        if ed.1.isEmpty ∨ ¬ ed.2.isEmpty then none
        else some (p0.1 * mant * qpow10 (es.1 * (digitsToNat ed.1 : ℤ)))
      else none

/-- CPython `float(v)` on a `PyVal` (see the section comment above). -/
def pyFloatConv : PyVal → Except PyErr ℚ
  | .intV n =>
    match roundDouble (n : ℚ) with
    | some q => .ok q
    | none => .error .overflowError
  | .floatV q => .ok q
  | .strV s =>
    match pyParseFloat s with
    | none => .error .valueError
    | some v =>
      match roundDouble v with
      | some q => .ok q
      | none => .error .overflowError
  | .noneV => .error .typeError

/-- "Can be interpreted as a number", stated from the spec's words: ints
and floats are numbers, strings are numeric when they parse as a decimal
literal, `None` is not a number. -/
def PyVal.isNumeric : PyVal → Bool
  | .intV _ => true
  | .floatV _ => true
  | .strV s => (pyParseFloat s).isSome
  | .noneV => false

def exceptIsOk : Except PyErr ℚ → Bool
  | .ok _ => true
  | .error _ => false

/-!
## Python `repr` of a float

`formatFloat` models `str(float)` (= `repr` in Python 3): the shortest
decimal digit string that round-trips through binary64 rounding, rendered
in fixed notation when the decimal exponent is in `[-4, 16)` and in
scientific notation otherwise.  Only the integral fixed-notation branch
(`"42.0"`) is relied on by proved properties.
-/

def stripTrailingZerosStr (s : String) : String :=
  let l := (s.data.reverse.dropWhile (fun c => c = '0')).reverse
  if l.isEmpty then "0" else String.mk l

def padNum (w : ℕ) (n : ℤ) : String :=
  let s := toString n.toNat
  String.mk (List.replicate (w - s.length) '0') ++ s

def zeroStr (k : ℕ) : String := String.mk (List.replicate k '0')

/-- Render shortest digits `n` at decimal position `pos` the way CPython
formats a float `repr`: fixed notation for `-4 ≤ pos < 16`, scientific
otherwise. -/
def renderDigits (n : ℤ) (pos : ℤ) : String :=
  let d := stripTrailingZerosStr (toString n)
  if -4 ≤ pos ∧ pos < 16 then
    if 0 ≤ pos then
      if (pos + 1).toNat < d.length then
        (d.toSubstring.take (pos + 1).toNat).toString ++ "." ++
          (d.toSubstring.drop (pos + 1).toNat).toString
      else d ++ zeroStr ((pos + 1).toNat - d.length) ++ ".0"
    else "0." ++ zeroStr (-pos - 1).toNat ++ d
  else
    (d.toSubstring.take 1).toString ++
      (if d.length ≤ 1 then "" else "." ++ (d.toSubstring.drop 1).toString) ++
      "e" ++ (if pos < 0 then "-" else "+") ++ padNum 2 |pos|

/-- `a` correctly rounded to `p` significant decimal digits (assuming its
leading digit sits at decimal position `e10`). -/
def rawDigits (a : ℚ) (e10 : ℤ) (p : ℕ) : ℤ :=
  roundTiesEvenZ (a / qpow10 (e10 - (p : ℤ) + 1))

/-- Digit value after the carry produced when rounding overflows to the
next decade (`9.97 → 10.0`). -/
def digitsFor (a : ℚ) (e10 : ℤ) (p : ℕ) : ℤ :=
  if rawDigits a e10 p = 10 ^ p then rawDigits a e10 p / 10 else rawDigits a e10 p

/-- Decimal position of the leading digit, bumped on decade overflow. -/
def posFor (a : ℚ) (e10 : ℤ) (p : ℕ) : ℤ :=
  if rawDigits a e10 p = 10 ^ p then e10 + 1 else e10

/-- Search the shortest digit count `p` (from 1 up) whose correctly rounded
`p`-digit decimal round-trips to the double `a`; returns the digit value
and its decimal position. -/
def searchDigits (a : ℚ) (e10 : ℤ) : ℕ → ℕ → Option (ℤ × ℤ)
  | 0, _ => none
  | fuel + 1, p =>
    if roundDouble ((digitsFor a e10 p : ℚ) * qpow10 (posFor a e10 p - (p : ℤ) + 1)) = some a
    then some (digitsFor a e10 p, posFor a e10 p)
    else searchDigits a e10 fuel (p + 1)

/-- CPython `repr` of a (finite) float with value `q`.  The final fallback
is unreachable when `q` is a representable binary64 value, which is the
case for every float this model constructs. -/
def formatFloat (q : ℚ) : String :=
  if q = 0 then "0.0"
  else
    let sgn := if q < 0 then "-" else ""
    let a := |q|
    if a.den = 1 ∧ a.num < 10 ^ 16 then sgn ++ toString a.num ++ ".0"
    else
      match searchDigits a (ilog10q a) 17 1 with
      | some ne => sgn ++ renderDigits ne.1 ne.2
      | none => sgn ++ toString a.num ++ "div" ++ toString a.den

/-!
## Python dicts and `sorted`

A Python dict is an insertion-ordered association list whose keys are
unique.  `dictUpdate` is `d.update({k: v})`: an existing key keeps its
position and gets the new value, a new key is appended.  `pySorted` is
Python's `sorted` applied to the list of `(key, value)` tuples: ascending
lexicographic tuple order (for the unique-key lists produced by dicts the
value component is never reached; any total order on values yields the
same result).
-/

def dictUpdate (l : List (String × α)) (k : String) (v : α) : List (String × α) :=
  if l.any (fun p => p.1 = k) then l.map (fun p => if p.1 = k then (k, v) else p)
  else l ++ [(k, v)]

def pairLe [LinearOrder γ] (a b : String × γ) : Prop :=
  a.1 < b.1 ∨ (a.1 = b.1 ∧ a.2 ≤ b.2)

instance [LinearOrder γ] : DecidableRel (pairLe (γ := γ)) := fun a b => by
  unfold pairLe
  infer_instance

def keyLe (a b : String × γ) : Prop := a.1 ≤ b.1

instance : DecidableRel (keyLe (γ := γ)) := fun a b => by
  unfold keyLe
  infer_instance

instance [LinearOrder γ] : IsTotal (String × γ) pairLe := by
  constructor
  intro a b
  unfold pairLe
  rcases lt_trichotomy a.1 b.1 with h | h | h
  · exact Or.inl (Or.inl h)
  · rcases le_total a.2 b.2 with h2 | h2
    · exact Or.inl (Or.inr ⟨h, h2⟩)
    · exact Or.inr (Or.inr ⟨h.symm, h2⟩)
  · exact Or.inr (Or.inl h)

instance [LinearOrder γ] : IsTrans (String × γ) pairLe := by
  constructor
  intro a b c hab hbc
  unfold pairLe at *
  rcases hab with h1 | ⟨h1, h1'⟩ <;> rcases hbc with h2 | ⟨h2, h2'⟩
  · exact Or.inl (h1.trans h2)
  · exact Or.inl (h2 ▸ h1)
  · exact Or.inl (h1 ▸ h2)
  · exact Or.inr ⟨h1.trans h2, h1'.trans h2'⟩

instance [LinearOrder γ] : IsAntisymm (String × γ) pairLe := by
  constructor
  intro a b hab hba
  unfold pairLe at *
  rcases hab with h1 | ⟨h1, h1'⟩
  · rcases hba with h2 | ⟨h2, _⟩
    · exact absurd (h1.trans h2) (lt_irrefl _)
    · exact absurd h1 (h2 ▸ lt_irrefl _)
  · rcases hba with h2 | ⟨_, h2'⟩
    · exact absurd h2 (h1 ▸ lt_irrefl _)
    · exact Prod.ext h1 (le_antisymm h1' h2')

instance : IsTotal (String × γ) keyLe := by
  constructor
  intro a b
  exact le_total a.1 b.1

instance : IsTrans (String × γ) keyLe := by
  constructor
  intro a b c hab hbc
  exact le_trans hab hbc

/-- Python `sorted` on a list of `(key, value)` tuples. -/
def pySorted [LinearOrder γ] (l : List (String × γ)) : List (String × γ) :=
  l.insertionSort pairLe

/-- Sorting "ascending by key" alone — the spec's description of the
serialization order. -/
def specSortByKey (l : List (String × γ)) : List (String × γ) :=
  l.insertionSort keyLe

/-- `,`-join of `key=value` pairs, as the f-string/join in the source. -/
def joinPairs (l : List (String × String)) : String :=
  String.intercalate "," (l.map (fun p => p.1 ++ "=" ++ p.2))

/-!
## `create_influxdb_line` and `create_influxdb_dict`

`create_influxdb_line now_ns dev_id measurement_name fields tags timestamp`
embeds the source function.  `now_ns` is the value of
`int(time.time() * 10**9)` when `timestamp is None` (an external clock
sample).  A raised exception is an `Except.error`; on success the result
carries the produced line plus the post-call states of the caller's
`tags` and `fields` dicts (both are mutated in place by the source).
-/

/-- Lines 63–68: `int(time.time() * 10**9)` when no timestamp is given,
else `int(timestamp.timestamp() * 10**9)` in double precision. -/
def pyTimestampF (us : ℤ) : Option ℚ := roundDouble ((us : ℚ) / 1000000)

def pyEpochNs (us : ℤ) : Option ℤ :=
  (pyTimestampF us).bind fun s => (roundDouble (s * 1000000000)).map truncQ

/-- Total version: the `none` (overflow) branch is unreachable for any
instant representable as a Python `datetime` (year at most 9999). -/
def pyEpochNsT (us : ℤ) : ℤ := (pyEpochNs us).getD 0

def resolveEpochNs (now_ns : ℤ) : Option ℤ → ℤ
  | none => now_ns
  | some us => pyEpochNsT us

/-- The rendered tag segment (line 74 of the source). -/
def tagSegment (tags2 : List (String × String)) : String :=
  joinPairs (pySorted tags2)

/-- The rendered field segment for already-coerced fields (line 77). -/
def fieldSegment (cs : List (String × ℚ)) : String :=
  joinPairs ((pySorted cs).map (fun p => (p.1, formatFloat p.2)))

/-- Lines 75–76: `for k, v in fields.items(): fields[k] = float(v)`;
the first failing element raises. -/
def convFields : List (String × PyVal) → Except PyErr (List (String × ℚ))
  | [] => .ok []
  | kv :: rest =>
    match pyFloatConv kv.2 with
    | .error e => .error e
    | .ok q =>
      match convFields rest with
      | .error e => .error e
      | .ok cs => .ok ((kv.1, q) :: cs)

structure LineResult where
  line : String
  tags : List (String × String)
  fields : List (String × PyVal)
deriving DecidableEq

def create_influxdb_line (now_ns : ℤ) (dev_id measurement_name : String)
    (fields : List (String × PyVal)) (tags : Option (List (String × String)))
    (timestamp : Option ℤ) : Except PyErr LineResult :=
  match convFields fields with
  | .error e => .error e
  | .ok cs =>
    .ok
      { line := measurement_name ++ "," ++ tagSegment (dictUpdate (tags.getD []) "dev-id" dev_id)
          ++ " " ++ fieldSegment cs ++ " " ++ toString (resolveEpochNs now_ns timestamp)
      , tags := dictUpdate (tags.getD []) "dev-id" dev_id
      , fields := cs.map (fun p => (p.1, PyVal.floatV p.2)) }

/-- Days-to-civil-date conversion (proleptic Gregorian calendar),
matching Python's `datetime` date arithmetic. -/
def civilFromDays (z : ℤ) : ℤ × ℤ × ℤ :=
  let z2 := z + 719468
  let era := Int.ediv z2 146097
  let doe := z2 - era * 146097
  let yoe := Int.ediv (doe - Int.ediv doe 1460 + Int.ediv doe 36524 - Int.ediv doe 146096) 365
  let doy := doe - (365 * yoe + Int.ediv yoe 4 - Int.ediv yoe 100)
  let mp := Int.ediv (5 * doy + 2) 153
  let d := doy - Int.ediv (153 * mp + 2) 5 + 1
  let m := mp + (if mp < 10 then 3 else -9)
  (yoe + era * 400 + (if m ≤ 2 then 1 else 0), m, d)

/-- `datetime.isoformat()` of the UTC instant `us` microseconds since the
epoch: `YYYY-MM-DDTHH:MM:SS[.ffffff]+00:00` (the fractional part appears
only when the microsecond count is nonzero). -/
def isoformatUTC (us : ℤ) : String :=
  let day := Int.ediv us 86400000000
  let rem := Int.emod us 86400000000
  let ymd := civilFromDays day
  padNum 4 ymd.1 ++ "-" ++ padNum 2 ymd.2.1 ++ "-" ++ padNum 2 ymd.2.2 ++ "T" ++
    padNum 2 (Int.ediv rem 3600000000) ++ ":" ++
    padNum 2 (Int.ediv (Int.emod rem 3600000000) 60000000) ++ ":" ++
    padNum 2 (Int.ediv (Int.emod rem 60000000) 1000000) ++
    (if Int.emod rem 1000000 = 0 then "" else "." ++ padNum 6 (Int.emod rem 1000000)) ++
    "+00:00"

structure InfluxRecord where
  measurement : String
  tags : List (String × String)
  fields : List (String × PyVal)
  time : String
deriving DecidableEq

/-- Embedding of `create_influxdb_dict` (lines 83–107).  `now_us` is the
instant read by `datetime.datetime.now(ZoneInfo("UTC"))` when no timestamp
is given.  The `time_int` computed on lines 97 and 102 of the source is
dead: the returned dict never contains it. -/
def create_influxdb_dict (now_us : ℤ) (dev_id measurement_name : String)
    (fields : List (String × PyVal)) (tags : Option (List (String × String)))
    (timestamp : Option ℤ) : InfluxRecord :=
  { measurement := measurement_name
  , tags := dictUpdate (tags.getD []) "dev-id" dev_id
  , fields := fields
  , time := isoformatUTC (timestamp.getD now_us) }

/-!
## `write_data`

`write_data` (lines 110–113) is three straight-line statements against the
external client: acquire a write api, write, close.  The embedding is a
trace semantics: the external `write` call either returns or raises, and a
raise aborts the remaining statements (there is no `try`/`finally` or
`with` in the source).
-/

inductive WriteEvent where
  | acquireWriteApi
  | writeCall
  | closeCall
deriving DecidableEq

/-- Trace of client events produced by `write_data`, given whether the
underlying `write_api.write` call succeeds; the boolean result records
whether the function returned normally (`false` = exception propagated). -/
def write_data (writeSucceeds : Bool) : List WriteEvent × Bool :=
  if writeSucceeds then ([.acquireWriteApi, .writeCall, .closeCall], true)
  else ([.acquireWriteApi, .writeCall], false)

/-!
## Lemmas about `dictUpdate`
-/

theorem dictUpdate_lookup_self (l : List (String × α)) (k : String) (v : α) :
    (dictUpdate l k v).lookup k = some v := by
  unfold dictUpdate
  split
  · next hany =>
    induction l with
    | nil => simp at hany
    | cons p t ih =>
      obtain ⟨p1, p2⟩ := p
      simp only [List.map_cons]
      by_cases hp : p1 = k
      · rw [if_pos hp]
        simp [List.lookup]
      · rw [if_neg hp]
        have ht : t.any (fun p => decide (p.1 = k)) = true := by
          simp only [List.any_cons, Bool.or_eq_true] at hany
          rcases hany with h | h
          · exact absurd (of_decide_eq_true h) hp
          · exact h
        have hk : (k == p1) = false := by
          simp only [beq_eq_false_iff_ne, ne_eq]
          intro h
          exact hp h.symm
        rw [List.lookup, hk]
        exact ih ht
  · next hany =>
    induction l with
    | nil => simp [List.lookup]
    | cons p t ih =>
      obtain ⟨p1, p2⟩ := p
      have hp : ¬ p1 = k := by
        intro h
        exact hany (by simp [List.any_cons, h])
      have ht : ¬ t.any (fun p => decide (p.1 = k)) = true := by
        intro h
        exact hany (by simp [List.any_cons, h])
      have hk : (k == p1) = false := by
        simp only [beq_eq_false_iff_ne, ne_eq]
        intro h
        exact hp h.symm
      rw [List.cons_append, List.lookup, hk]
      exact ih ht

theorem dictUpdate_lookup_other (l : List (String × α)) (k k' : String) (v : α)
    (hne : k' ≠ k) : (dictUpdate l k v).lookup k' = l.lookup k' := by
  have hkk : (k' == k) = false := by
    simpa [beq_eq_false_iff_ne] using hne
  unfold dictUpdate
  split
  · next hany =>
    clear hany
    induction l with
    | nil => simp
    | cons p t ih =>
      obtain ⟨p1, p2⟩ := p
      simp only [List.map_cons]
      by_cases hp : p1 = k
      · subst hp
        rw [if_pos rfl, List.lookup, hkk, List.lookup, hkk]
        exact ih
      · rw [if_neg hp, List.lookup, List.lookup]
        cases hk' : (k' == p1) with
        | true => rfl
        | false => exact ih
  · next hany =>
    clear hany
    induction l with
    | nil => simp [List.lookup, hkk]
    | cons p t ih =>
      obtain ⟨p1, p2⟩ := p
      rw [List.cons_append, List.lookup, List.lookup]
      cases hk' : (k' == p1) with
      | true => rfl
      | false => exact ih

theorem dictUpdate_keys_of_mem (l : List (String × α)) (k : String) (v : α)
    (h : l.any (fun p => decide (p.1 = k)) = true) :
    (dictUpdate l k v).map Prod.fst = l.map Prod.fst := by
  unfold dictUpdate
  rw [if_pos h, List.map_map]
  apply List.map_congr_left
  intro p _
  by_cases hp : p.1 = k
  · simp [hp]
  · simp [hp]

theorem dictUpdate_keys_nodup (l : List (String × α)) (k : String) (v : α)
    (hN : (l.map Prod.fst).Nodup) : ((dictUpdate l k v).map Prod.fst).Nodup := by
  by_cases h : l.any (fun p => decide (p.1 = k)) = true
  · rw [dictUpdate_keys_of_mem l k v h]
    exact hN
  · unfold dictUpdate
    rw [if_neg h, List.map_append]
    have hk : k ∉ l.map Prod.fst := by
      intro hmem
      apply h
      rw [List.any_eq_true]
      rcases List.mem_map.mp hmem with ⟨p, hp, hpk⟩
      exact ⟨p, hp, by simp [hpk]⟩
    simp only [List.map_cons, List.map_nil]
    exact List.Nodup.append hN (List.nodup_singleton k)
      (by simpa [List.disjoint_singleton] using hk)

theorem dictUpdate_count_one (l : List (String × α)) (k : String) (v : α)
    (hN : (l.map Prod.fst).Nodup) :
    ((dictUpdate l k v).map Prod.fst).count k = 1 := by
  by_cases h : l.any (fun p => decide (p.1 = k)) = true
  · rw [dictUpdate_keys_of_mem l k v h]
    apply List.count_eq_one_of_mem hN
    rw [List.any_eq_true] at h
    rcases h with ⟨p, hp, hpk⟩
    exact List.mem_map.mpr ⟨p, hp, of_decide_eq_true hpk⟩
  · unfold dictUpdate
    rw [if_neg h, List.map_append]
    have hk : k ∉ l.map Prod.fst := by
      intro hmem
      apply h
      rw [List.any_eq_true]
      rcases List.mem_map.mp hmem with ⟨p, hp, hpk⟩
      exact ⟨p, hp, by simp [hpk]⟩
    rw [List.count_append]
    rw [List.count_eq_zero_of_not_mem hk]
    simp

theorem dictUpdate_perm {l₁ l₂ : List (String × α)} (h : l₁.Perm l₂) (k : String) (v : α) :
    (dictUpdate l₁ k v).Perm (dictUpdate l₂ k v) := by
  unfold dictUpdate
  have hany : l₁.any (fun p => decide (p.1 = k)) = l₂.any (fun p => decide (p.1 = k)) := by
    rw [Bool.eq_iff_iff, List.any_eq_true, List.any_eq_true]
    constructor
    · rintro ⟨p, hp, hpk⟩
      exact ⟨p, h.mem_iff.mp hp, hpk⟩
    · rintro ⟨p, hp, hpk⟩
      exact ⟨p, h.mem_iff.mpr hp, hpk⟩
  rw [← hany]
  split
  · exact h.map _
  · exact h.append_right [(k, v)]

/-!
## Lemmas about sorting
-/

theorem sorted_keyLe_of_pairLe [LinearOrder γ] {l : List (String × γ)}
    (h : l.Sorted pairLe) : l.Sorted keyLe := by
  apply List.Pairwise.imp _ h
  intro a b hab
  rcases hab with h1 | ⟨h1, _⟩
  · exact le_of_lt h1
  · exact le_of_eq h1

/-- Two key-sorted permutations of a duplicate-key-free association list
are equal (key-only sorting is canonical on well-formed dicts). -/
theorem eq_of_perm_sorted_keys {l₁ l₂ : List (String × γ)} (hp : l₁.Perm l₂)
    (hs₁ : l₁.Sorted keyLe) (hs₂ : l₂.Sorted keyLe)
    (hN : (l₁.map Prod.fst).Nodup) : l₁ = l₂ := by
  induction l₁ generalizing l₂ with
  | nil => exact hp.nil_eq
  | cons a t ih =>
    cases l₂ with
    | nil => exact absurd hp.symm.nil_eq (by simp)
    | cons b t₂ =>
      by_cases hab : a = b
      · subst hab
        have ht : t.Perm t₂ := hp.cons_inv
        have := ih ht (List.sorted_cons.mp hs₁).2 (List.sorted_cons.mp hs₂).2
          (by simpa using (List.nodup_cons.mp (by simpa using hN)).2)
        rw [this]
      · exfalso
        have ha2 : a ∈ t₂ := by
          rcases List.mem_cons.mp (hp.subset (List.mem_cons_self a t)) with h | h
          · exact absurd h hab
          · exact h
        have hb1 : b ∈ t := by
          rcases List.mem_cons.mp (hp.symm.subset (List.mem_cons_self b t₂)) with h | h
          · exact absurd h.symm hab
          · exact h
        have h1 : keyLe a b := (List.sorted_cons.mp hs₁).1 b hb1
        have h2 : keyLe b a := (List.sorted_cons.mp hs₂).1 a ha2
        have hkey : a.1 = b.1 := le_antisymm h1 h2
        have : a.1 ∈ t.map Prod.fst := hkey ▸ List.mem_map.mpr ⟨b, hb1, rfl⟩
        exact (List.nodup_cons.mp (by simpa using hN)).1 this

theorem pySorted_perm [LinearOrder γ] (l : List (String × γ)) : (pySorted l).Perm l :=
  List.perm_insertionSort pairLe l

theorem specSortByKey_perm (l : List (String × γ)) : (specSortByKey l).Perm l :=
  List.perm_insertionSort keyLe l

/-- On a well-formed dict (no duplicate keys), Python's tuple sort agrees
with the spec's sort-ascending-by-key. -/
theorem pySorted_eq_specSortByKey [LinearOrder γ] (l : List (String × γ))
    (hN : (l.map Prod.fst).Nodup) : pySorted l = specSortByKey l := by
  apply eq_of_perm_sorted_keys ((pySorted_perm l).trans (specSortByKey_perm l).symm)
  · exact sorted_keyLe_of_pairLe (List.sorted_insertionSort pairLe l)
  · exact List.sorted_insertionSort keyLe l
  · exact (((pySorted_perm l).map Prod.fst).nodup_iff).mpr hN

/-- Permuting the input does not change the tuple-sorted output. -/
theorem pySorted_perm_eq [LinearOrder γ] {l₁ l₂ : List (String × γ)} (h : l₁.Perm l₂) :
    pySorted l₁ = pySorted l₂ :=
  List.eq_of_perm_of_sorted ((pySorted_perm l₁).trans (h.trans (pySorted_perm l₂).symm))
    (List.sorted_insertionSort pairLe l₁) (List.sorted_insertionSort pairLe l₂)

/-!
## Lemmas about `convFields`
-/

/-- The value `float(v)` evaluates to on success (defaulted on error). -/
def convValD (v : PyVal) : ℚ :=
  match pyFloatConv v with
  | .ok q => q
  | .error _ => 0

theorem convFields_eq_ok {l : List (String × PyVal)} {cs : List (String × ℚ)}
    (h : convFields l = .ok cs) : cs = l.map fun kv => (kv.1, convValD kv.2) := by
  induction l generalizing cs with
  | nil =>
    simp only [convFields] at h
    cases h
    simp
  | cons kv rest ih =>
    simp only [convFields] at h
    cases hconv : pyFloatConv kv.2 with
    | error e => rw [hconv] at h; cases h
    | ok q =>
      rw [hconv] at h
      cases hrest : convFields rest with
      | error e => rw [hrest] at h; cases h
      | ok cs' =>
        rw [hrest] at h
        cases h
        simp only [List.map_cons]
        rw [← ih hrest]
        have : convValD kv.2 = q := by
          unfold convValD
          rw [hconv]
        rw [this]

theorem convFields_ok_of_all {l : List (String × PyVal)}
    (h : ∀ kv ∈ l, exceptIsOk (pyFloatConv kv.2) = true) :
    convFields l = .ok (l.map fun kv => (kv.1, convValD kv.2)) := by
  induction l with
  | nil => simp [convFields]
  | cons kv rest ih =>
    have hhead := h kv (List.mem_cons_self kv rest)
    simp only [convFields]
    cases hconv : pyFloatConv kv.2 with
    | error e =>
      rw [hconv] at hhead
      simp [exceptIsOk] at hhead
    | ok q =>
      rw [ih (fun x hx => h x (List.mem_cons_of_mem kv hx))]
      have : convValD kv.2 = q := by
        unfold convValD
        rw [hconv]
      simp [this]

theorem convFields_error_of_ex {l : List (String × PyVal)}
    (h : ∃ kv ∈ l, exceptIsOk (pyFloatConv kv.2) = false) :
    ∃ e, convFields l = .error e := by
  induction l with
  | nil => simp at h
  | cons kv rest ih =>
    simp only [convFields]
    cases hconv : pyFloatConv kv.2 with
    | error e => exact ⟨e, rfl⟩
    | ok q =>
      have hrest : ∃ x ∈ rest, exceptIsOk (pyFloatConv x.2) = false := by
        rcases h with ⟨x, hx, hxf⟩
        rcases List.mem_cons.mp hx with rfl | hx'
        · rw [hconv] at hxf
          simp [exceptIsOk] at hxf
        · exact ⟨x, hx', hxf⟩
      rcases ih hrest with ⟨e, he⟩
      rw [he]
      exact ⟨e, rfl⟩

theorem convFields_keys {l : List (String × PyVal)} {cs : List (String × ℚ)}
    (h : convFields l = .ok cs) : cs.map Prod.fst = l.map Prod.fst := by
  rw [convFields_eq_ok h, List.map_map]
  rfl

/-!
## The epoch computation on whole seconds
-/

theorem qpow2_zero : qpow2 0 = 1 := by norm_num [qpow2]

theorem qpow2_nine : qpow2 9 = 512 := by with_unfolding_all rfl

/-- For a whole-second instant with unix seconds in `[0, 2^32)`, the
double-precision epoch computation of the source is exact: both float
operations land on representable values, so `int(timestamp * 10**9)`
equals the mathematical `seconds * 10^9`. -/
theorem pyEpochNsT_whole_seconds (s : ℤ) (h0 : 0 ≤ s) (h1 : s < 4294967296) :
    pyEpochNsT (s * 1000000) = s * 1000000000 := by
  rcases eq_or_lt_of_le h0 with hz | hs
  · rw [← hz]
    with_unfolding_all rfl
  · have e1 : ((s * 1000000 : ℤ) : ℚ) / 1000000 = (s : ℚ) * qpow2 0 := by
      rw [qpow2_zero]
      push_cast
      rw [mul_one, mul_div_assoc]
      norm_num
    have hzpow32 : (2 : ℚ) ^ (32 : ℤ) = 4294967296 := by
      rw [show ((32 : ℤ)) = ((32 : ℕ) : ℤ) from rfl, zpow_natCast]
      norm_num
    have hb1 : (s : ℚ) * qpow2 0 < qpow2 1024 := by
      rw [qpow2_zero, mul_one, qpow2_eq_zpow]
      have hcast : (s : ℚ) < (2 : ℚ) ^ (32 : ℤ) := by
        rw [hzpow32]
        exact_mod_cast h1
      exact lt_of_lt_of_le hcast
        (zpow_le_zpow_right₀ (by norm_num : (1:ℚ) ≤ 2) (by norm_num))
    have hs53 : s < 2 ^ 53 := lt_of_lt_of_le h1 (by norm_num)
    have e2 : ((s : ℚ) * qpow2 0) * 1000000000 = ((s * 1953125 : ℤ) : ℚ) * qpow2 9 := by
      rw [qpow2_zero, qpow2_nine]
      push_cast
      ring
    have hm2 : s * 1953125 < 2 ^ 53 := by
      calc s * 1953125 < 4294967296 * 1953125 := by
            exact mul_lt_mul_of_pos_right h1 (by norm_num)
        _ < 2 ^ 53 := by norm_num
    have hzpow53 : (2 : ℚ) ^ (53 : ℤ) = 9007199254740992 := by
      rw [show ((53 : ℤ)) = ((53 : ℕ) : ℤ) from rfl, zpow_natCast]
      norm_num
    have hb2 : ((s * 1953125 : ℤ) : ℚ) * qpow2 9 < qpow2 1024 := by
      rw [qpow2_eq_zpow, qpow2_eq_zpow]
      have hcast : ((s * 1953125 : ℤ) : ℚ) < (2 : ℚ) ^ (53 : ℤ) := by
        rw [hzpow53]
        have : ((s * 1953125 : ℤ) : ℚ) < ((9007199254740992 : ℤ) : ℚ) := by
          exact_mod_cast lt_of_lt_of_le hm2 (by norm_num)
        exact_mod_cast this
      calc ((s * 1953125 : ℤ) : ℚ) * (2 : ℚ) ^ (9 : ℤ)
          < (2 : ℚ) ^ (53 : ℤ) * (2 : ℚ) ^ (9 : ℤ) := by
            exact mul_lt_mul_of_pos_right hcast (by positivity)
        _ = (2 : ℚ) ^ (62 : ℤ) := by
            rw [← zpow_add₀ (by norm_num : (2:ℚ) ≠ 0)]
            norm_num
        _ ≤ (2 : ℚ) ^ (1024 : ℤ) := by
            exact zpow_le_zpow_right₀ (by norm_num : (1:ℚ) ≤ 2) (by norm_num)
    have e3 : ((s * 1953125 : ℤ) : ℚ) * qpow2 9 = ((s * 1000000000 : ℤ) : ℚ) := by
      rw [qpow2_nine]
      push_cast
      ring
    unfold pyEpochNsT pyEpochNs pyTimestampF
    rw [e1, roundDouble_exact s 0 hs hs53 (by norm_num) hb1]
    show ((roundDouble (((s : ℚ) * qpow2 0) * 1000000000)).map truncQ).getD 0 = s * 1000000000
    rw [e2, roundDouble_exact (s * 1953125) 9 (by positivity) hm2 (by norm_num) hb2, e3]
    show truncQ ((s * 1000000000 : ℤ) : ℚ) = s * 1000000000
    rw [truncQ_intCast]

/-!
## The claims
-/

/-- C1: for every device id, measurement name, fields map of numeric values
(`convFields` succeeds), optional tags map and optional timestamp,
`create_influxdb_line` returns the single string
`measurement_name ++ "," ++ tags ++ " " ++ fields ++ " " ++ epoch_ns`, where
the tag segment and the field segment are each a comma-joined list of
`key=value` pairs sorted ascending by key (`specSortByKey`), on well-formed
dicts (no duplicate keys). -/
theorem C1_line_protocol_format (now_ns : ℤ) (dev_id measurement_name : String)
    (fields : List (String × PyVal)) (tags : Option (List (String × String)))
    (timestamp : Option ℤ) (cs : List (String × ℚ))
    (htN : ((tags.getD []).map Prod.fst).Nodup)
    (hfN : (fields.map Prod.fst).Nodup)
    (hc : convFields fields = .ok cs) :
    create_influxdb_line now_ns dev_id measurement_name fields tags timestamp =
      .ok
        { line := measurement_name ++ "," ++
            joinPairs (specSortByKey (dictUpdate (tags.getD []) "dev-id" dev_id)) ++ " " ++
            joinPairs ((specSortByKey cs).map (fun p => (p.1, formatFloat p.2))) ++ " " ++
            toString (resolveEpochNs now_ns timestamp)
        , tags := dictUpdate (tags.getD []) "dev-id" dev_id
        , fields := cs.map (fun p => (p.1, PyVal.floatV p.2)) } := by
  have hupd : ((dictUpdate (tags.getD []) "dev-id" dev_id).map Prod.fst).Nodup :=
    dictUpdate_keys_nodup _ _ _ htN
  have hcsN : (cs.map Prod.fst).Nodup := by
    rw [convFields_keys hc]
    exact hfN
  simp only [create_influxdb_line, hc, tagSegment, fieldSegment,
    pySorted_eq_specSortByKey _ hupd, pySorted_eq_specSortByKey _ hcsN]

/-- Witness for C1 at a concrete input: unsorted tags and fields come out
key-sorted, with `dev-id` injected and float-rendered field values. -/
theorem C1_line_protocol_format_witness :
    create_influxdb_line 7 "dev" "meas" [("y", PyVal.intV 1), ("x", PyVal.floatV (5/2))]
        (some [("b", "2"), ("a", "1")]) none =
      .ok
        { line := "meas,a=1,b=2,dev-id=dev x=2.5,y=1.0 7"
        , tags := [("b", "2"), ("a", "1"), ("dev-id", "dev")]
        , fields := [("y", PyVal.floatV 1), ("x", PyVal.floatV (5/2))] } :=
  (C1_line_protocol_format 7 "dev" "meas" [("y", PyVal.intV 1), ("x", PyVal.floatV (5/2))]
      (some [("b", "2"), ("a", "1")]) none [("y", 1), ("x", 5/2)]
      (by decide) (by decide) (by with_unfolding_all rfl)).trans
    (by with_unfolding_all rfl)

/-- C2: for every input (with a well-formed tags dict), the tag list of
the output of both `create_influxdb_dict` and `create_influxdb_line`
contains the key `dev-id` exactly once, and its value is the `dev_id`
argument — even when the caller-supplied tags already contain a different
`dev-id` entry. -/
theorem C2_dev_id_invariant (now_ns now_us : ℤ) (dev_id mname : String)
    (fields : List (String × PyVal)) (tags : Option (List (String × String)))
    (ts : Option ℤ) (htN : ((tags.getD []).map Prod.fst).Nodup) :
    (((create_influxdb_dict now_us dev_id mname fields tags ts).tags.map Prod.fst).count
        "dev-id" = 1 ∧
      (create_influxdb_dict now_us dev_id mname fields tags ts).tags.lookup "dev-id" =
        some dev_id) ∧
    ∀ r : LineResult, create_influxdb_line now_ns dev_id mname fields tags ts = .ok r →
      (r.tags.map Prod.fst).count "dev-id" = 1 ∧ r.tags.lookup "dev-id" = some dev_id := by
  refine ⟨⟨dictUpdate_count_one _ _ _ htN, dictUpdate_lookup_self _ _ _⟩, ?_⟩
  intro r hr
  cases hcf : convFields fields with
  | error e =>
    rw [create_influxdb_line, hcf] at hr
    cases hr
  | ok cs =>
    rw [create_influxdb_line, hcf] at hr
    cases hr
    exact ⟨dictUpdate_count_one _ _ _ htN, dictUpdate_lookup_self _ _ _⟩

/-- Witness for C2: a caller-supplied `dev-id` tag with a different value
is overridden, and `dev-id` appears exactly once, on both paths. -/
theorem C2_dev_id_invariant_witness :
    (((create_influxdb_dict 0 "NEW" "m" [] (some [("dev-id", "OLD"), ("a", "b")])
        none).tags.map Prod.fst).count "dev-id" = 1 ∧
      (create_influxdb_dict 0 "NEW" "m" [] (some [("dev-id", "OLD"), ("a", "b")])
        none).tags.lookup "dev-id" = some "NEW") ∧
    (((⟨"m,a=b,dev-id=NEW  0", [("dev-id", "NEW"), ("a", "b")], []⟩ :
        LineResult).tags.map Prod.fst).count "dev-id" = 1 ∧
      (⟨"m,a=b,dev-id=NEW  0", [("dev-id", "NEW"), ("a", "b")], []⟩ :
        LineResult).tags.lookup "dev-id" = some "NEW") :=
  ⟨(C2_dev_id_invariant 0 0 "NEW" "m" [] (some [("dev-id", "OLD"), ("a", "b")]) none
      (by decide)).1,
    (C2_dev_id_invariant 0 0 "NEW" "m" [] (some [("dev-id", "OLD"), ("a", "b")]) none
      (by decide)).2 ⟨"m,a=b,dev-id=NEW  0", [("dev-id", "NEW"), ("a", "b")], []⟩
      (by with_unfolding_all rfl)⟩

/-- C3 counterexample: at the timezone-aware timestamp
2021-05-01T00:00:00.000001+00:00 (unix microseconds 1619827200000001) the
emitted epoch value is 1619827200000001024, whereas
`floor(unix_seconds * 1e9)` is 1619827200000001000: the claimed exact
equality fails, because `int(timestamp.timestamp() * 10**9)` rounds
twice through binary64. -/
theorem C3_epoch_counterexample :
    create_influxdb_line 0 "d" "m" [("temp", PyVal.intV 42)] none (some 1619827200000001) =
      .ok
        { line := "m,dev-id=d temp=42.0 1619827200000001024"
        , tags := [("dev-id", "d")]
        , fields := [("temp", PyVal.floatV 42)] } ∧
    ⌊((1619827200000001 : ℤ) : ℚ) / 1000000 * 1000000000⌋ = 1619827200000001000 ∧
    pyEpochNsT 1619827200000001 ≠ 1619827200000001000 := by
  refine ⟨by with_unfolding_all rfl, ?_, by with_unfolding_all decide⟩
  have : ((1619827200000001 : ℤ) : ℚ) / 1000000 * 1000000000 =
      ((1619827200000001000 : ℤ) : ℚ) := by
    norm_num
  rw [this, Int.floor_intCast]

/-- C3 amended: for whole-second timezone-aware timestamps with unix
seconds in `[0, 2^32)` the emitted epoch value (`pyEpochNsT`, the
double-precision computation used by `create_influxdb_line`) does equal
`floor(unix_seconds * 1e9) = seconds * 10^9` exactly; in particular
2021-05-01T00:00:00Z yields 1619827200000000000.  (For timestamps with a
fractional second the two binary64 roundings can deviate from the exact
value, as the counterexample shows.) -/
theorem C3_epoch_amended (s : ℤ) (h0 : 0 ≤ s) (h1 : s < 4294967296) :
    pyEpochNsT (s * 1000000) = s * 1000000000 ∧
    ⌊((s * 1000000 : ℤ) : ℚ) / 1000000 * 1000000000⌋ = s * 1000000000 := by
  refine ⟨pyEpochNsT_whole_seconds s h0 h1, ?_⟩
  have : ((s * 1000000 : ℤ) : ℚ) / 1000000 * 1000000000 = ((s * 1000000000 : ℤ) : ℚ) := by
    push_cast
    rw [mul_div_assoc]
    norm_num
  rw [this, Int.floor_intCast]

/-- Witness for C3 amended at 2021-05-01T00:00:00Z. -/
theorem C3_epoch_amended_witness :
    (0 : ℤ) ≤ 1619827200 ∧ (1619827200 : ℤ) < 4294967296 ∧
    pyEpochNsT (1619827200 * 1000000) = 1619827200 * 1000000000 :=
  ⟨by norm_num, by norm_num,
    (C3_epoch_amended 1619827200 (by norm_num) (by norm_num)).1⟩

/-- C4: given fields maps and tags maps that are equal as key-to-value
mappings (permutations of each other) and the same device id, measurement
name and timestamp, `create_influxdb_line` produces identical strings and
`create_influxdb_dict` produces identical records (Python `==` on dicts
is insertion-order-insensitive: same measurement and time strings, and
tag/field lists equal up to permutation). -/
theorem C4_order_invariance (now_ns now_us : ℤ) (dev mname : String) (ts : Option ℤ)
    (f1 f2 : List (String × PyVal)) (t1 t2 : List (String × String))
    (hf : f1.Perm f2) (ht : t1.Perm t2) :
    (∀ r1 r2 : LineResult,
        create_influxdb_line now_ns dev mname f1 (some t1) ts = .ok r1 →
        create_influxdb_line now_ns dev mname f2 (some t2) ts = .ok r2 →
        r1.line = r2.line) ∧
    ((create_influxdb_dict now_us dev mname f1 (some t1) ts).measurement =
        (create_influxdb_dict now_us dev mname f2 (some t2) ts).measurement ∧
      (create_influxdb_dict now_us dev mname f1 (some t1) ts).time =
        (create_influxdb_dict now_us dev mname f2 (some t2) ts).time ∧
      (create_influxdb_dict now_us dev mname f1 (some t1) ts).tags.Perm
        (create_influxdb_dict now_us dev mname f2 (some t2) ts).tags ∧
      (create_influxdb_dict now_us dev mname f1 (some t1) ts).fields.Perm
        (create_influxdb_dict now_us dev mname f2 (some t2) ts).fields) := by
  constructor
  · intro r1 r2 h1 h2
    cases hcf1 : convFields f1 with
    | error e =>
      rw [create_influxdb_line, hcf1] at h1
      cases h1
    | ok cs1 =>
      cases hcf2 : convFields f2 with
      | error e =>
        rw [create_influxdb_line, hcf2] at h2
        cases h2
      | ok cs2 =>
        rw [create_influxdb_line, hcf1] at h1
        rw [create_influxdb_line, hcf2] at h2
        cases h1
        cases h2
        have htagseg : tagSegment (dictUpdate t1 "dev-id" dev) =
            tagSegment (dictUpdate t2 "dev-id" dev) := by
          unfold tagSegment
          rw [pySorted_perm_eq (dictUpdate_perm ht "dev-id" dev)]
        have hcsperm : cs1.Perm cs2 := by
          rw [convFields_eq_ok hcf1, convFields_eq_ok hcf2]
          exact hf.map _
        have hfieldseg : fieldSegment cs1 = fieldSegment cs2 := by
          unfold fieldSegment
          rw [pySorted_perm_eq hcsperm]
        show mname ++ "," ++ tagSegment (dictUpdate (some t1 |>.getD []) "dev-id" dev) ++ " " ++
            fieldSegment cs1 ++ " " ++ toString (resolveEpochNs now_ns ts) =
          mname ++ "," ++ tagSegment (dictUpdate (some t2 |>.getD []) "dev-id" dev) ++ " " ++
            fieldSegment cs2 ++ " " ++ toString (resolveEpochNs now_ns ts)
        rw [show (some t1 |>.getD []) = t1 from rfl, show (some t2 |>.getD []) = t2 from rfl,
          htagseg, hfieldseg]
  · exact ⟨rfl, rfl, dictUpdate_perm ht "dev-id" dev, hf⟩

/-- Witness for C4 at concrete permuted inputs. -/
theorem C4_order_invariance_witness :
    (⟨"m,a=1,b=2,dev-id=d x=1.0,y=2.0 3", [("a", "1"), ("b", "2"), ("dev-id", "d")],
        [("x", PyVal.floatV 1), ("y", PyVal.floatV 2)]⟩ : LineResult).line =
      (⟨"m,a=1,b=2,dev-id=d x=1.0,y=2.0 3", [("b", "2"), ("a", "1"), ("dev-id", "d")],
        [("y", PyVal.floatV 2), ("x", PyVal.floatV 1)]⟩ : LineResult).line ∧
    (create_influxdb_dict 0 "d" "m" [("x", PyVal.intV 1), ("y", PyVal.intV 2)]
        (some [("a", "1"), ("b", "2")]) none).tags.Perm
      (create_influxdb_dict 0 "d" "m" [("y", PyVal.intV 2), ("x", PyVal.intV 1)]
        (some [("b", "2"), ("a", "1")]) none).tags :=
  ⟨(C4_order_invariance 3 0 "d" "m" none [("x", PyVal.intV 1), ("y", PyVal.intV 2)]
        [("y", PyVal.intV 2), ("x", PyVal.intV 1)] [("a", "1"), ("b", "2")]
        [("b", "2"), ("a", "1")] (by decide) (by decide)).1
      ⟨"m,a=1,b=2,dev-id=d x=1.0,y=2.0 3", [("a", "1"), ("b", "2"), ("dev-id", "d")],
        [("x", PyVal.floatV 1), ("y", PyVal.floatV 2)]⟩
      ⟨"m,a=1,b=2,dev-id=d x=1.0,y=2.0 3", [("b", "2"), ("a", "1"), ("dev-id", "d")],
        [("y", PyVal.floatV 2), ("x", PyVal.floatV 1)]⟩
      (by with_unfolding_all rfl) (by with_unfolding_all rfl),
    (C4_order_invariance 3 0 "d" "m" none [("x", PyVal.intV 1), ("y", PyVal.intV 2)]
        [("y", PyVal.intV 2), ("x", PyVal.intV 1)] [("a", "1"), ("b", "2")]
        [("b", "2"), ("a", "1")] (by decide) (by decide)).2.2.2.1⟩

/-- C5 amended: if some field value fails `float()` conversion,
`create_influxdb_line` raises before producing a line (so before the
caller can reach any network call); conversely, if every field value
converts to a (finite) binary64 float, the coercion step succeeds for all
fields and a line is produced.  (The original claim's converse — "every
numeric value converts" — fails for ints of magnitude `≥ 2^1024`, where
CPython's `float()` raises `OverflowError`; see the counterexample.) -/
theorem C5_conversion_errors (now_ns : ℤ) (dev mname : String)
    (fields : List (String × PyVal)) (tags : Option (List (String × String)))
    (ts : Option ℤ) :
    ((∃ kv ∈ fields, exceptIsOk (pyFloatConv kv.2) = false) →
      ∃ e, create_influxdb_line now_ns dev mname fields tags ts = .error e) ∧
    ((∀ kv ∈ fields, exceptIsOk (pyFloatConv kv.2) = true) →
      ∃ r, create_influxdb_line now_ns dev mname fields tags ts = .ok r) := by
  constructor
  · intro h
    rcases convFields_error_of_ex h with ⟨e, he⟩
    exact ⟨e, by rw [create_influxdb_line, he]⟩
  · intro h
    exact ⟨_, by rw [create_influxdb_line, convFields_ok_of_all h]⟩

/-- C5 counterexample: `10 ^ 400` is numeric (a Python int), yet
`create_influxdb_line` fails on it with `OverflowError` — the claim's
"numeric implies coercion succeeds" direction is false. -/
theorem C5_numeric_overflow_counterexample :
    (∀ kv ∈ ([("x", PyVal.intV (10 ^ 400))] : List (String × PyVal)),
      kv.2.isNumeric = true) ∧
    create_influxdb_line 0 "d" "m" [("x", PyVal.intV (10 ^ 400))] none (some 0) =
      .error .overflowError := by
  constructor
  · intro kv hkv
    rw [List.mem_singleton.mp hkv]
    rfl
  · with_unfolding_all rfl

/-- Witness for C5 amended: a `None` field value raises; an int field
value converts and yields a line. -/
theorem C5_conversion_errors_witness :
    (∃ e, create_influxdb_line 0 "d" "m" [("bad", PyVal.noneV)] none (some 0) = .error e) ∧
    (∃ r, create_influxdb_line 0 "d" "m" [("ok", PyVal.intV 1)] none (some 0) = .ok r) :=
  ⟨(C5_conversion_errors 0 "d" "m" [("bad", PyVal.noneV)] none (some 0)).1
      ⟨("bad", PyVal.noneV), List.mem_singleton.mpr rfl, by with_unfolding_all rfl⟩,
    (C5_conversion_errors 0 "d" "m" [("ok", PyVal.intV 1)] none (some 0)).2
      (fun kv hkv => by
        rw [List.mem_singleton.mp hkv]
        with_unfolding_all rfl)⟩

/-- C6: in the line-protocol path every field value is rendered through
float coercion, so an integer input is emitted in floating-point textual
form: for fields `{"temp": 42}` the field segment is `temp=42.0`, for any
device id, measurement name, tags and timestamp. -/
theorem C6_integer_field_rendered_as_float (now_ns : ℤ) (dev mname : String)
    (tags : Option (List (String × String))) (ts : Option ℤ) :
    fieldSegment [("temp", (42 : ℚ))] = "temp=42.0" ∧
    create_influxdb_line now_ns dev mname [("temp", PyVal.intV 42)] tags ts =
      .ok
        { line := mname ++ "," ++ tagSegment (dictUpdate (tags.getD []) "dev-id" dev) ++
            " " ++ "temp=42.0" ++ " " ++ toString (resolveEpochNs now_ns ts)
        , tags := dictUpdate (tags.getD []) "dev-id" dev
        , fields := [("temp", PyVal.floatV 42)] } := by
  have hseg : fieldSegment [("temp", (42 : ℚ))] = "temp=42.0" := by
    with_unfolding_all rfl
  refine ⟨hseg, ?_⟩
  with_unfolding_all rfl

/-- C7: `create_influxdb_dict` returns a record with exactly the keys
`measurement`, `tags`, `fields` and `time`; `measurement` is the argument,
`tags` gets `dev-id` injected, `fields` is passed through verbatim (no
float coercion), and `time` is the ISO-8601 string of the UTC timestamp
(not a nanosecond integer) — e.g. `2021-05-01T00:00:00+00:00`. -/
theorem C7_dict_record_structure (now_us : ℤ) (dev mname : String)
    (fields : List (String × PyVal)) (tags : Option (List (String × String)))
    (ts : Option ℤ) :
    create_influxdb_dict now_us dev mname fields tags ts =
      { measurement := mname
      , tags := dictUpdate (tags.getD []) "dev-id" dev
      , fields := fields
      , time := isoformatUTC (ts.getD now_us) } ∧
    isoformatUTC 1619827200000000 = "2021-05-01T00:00:00+00:00" :=
  ⟨rfl, by with_unfolding_all rfl⟩

/-- C8 counterexample: when the underlying `write_api.write` call fails,
`write_data` never reaches `write_api.close()` — the per-write channel is
not released on failure (the source has no `try`/`finally` or `with`),
refuting the claim that release happens even when the write fails. -/
theorem C8_release_on_failure_counterexample :
    WriteEvent.closeCall ∉ (write_data false).1 ∧ (write_data false).2 = false := by
  decide

/-- C8 amended: `write_data` acquires the write channel per call and,
when the write call succeeds, releases it immediately after; when the
write call raises, the exception propagates and the close call is
skipped. -/
theorem C8_release_amended :
    (write_data true).1 =
      [WriteEvent.acquireWriteApi, WriteEvent.writeCall, WriteEvent.closeCall] ∧
    (write_data true).2 = true ∧
    (write_data false).1 = [WriteEvent.acquireWriteApi, WriteEvent.writeCall] := by
  decide

/-- C9: with a non-`None` tags map, both formatters mutate the caller's
tags dict in place when injecting `dev-id` (the output's tags component
*is* the caller's dict after the call): afterwards it holds the `dev-id`
entry, all other entries are unchanged, and when the dict did not already
map `dev-id` to the device id it really changed (no fresh copy with the
input left untouched). -/
theorem C9_tags_mutated_in_place (now_ns now_us : ℤ) (dev mname : String)
    (fields : List (String × PyVal)) (ts : Option ℤ) (t : List (String × String)) :
    (create_influxdb_dict now_us dev mname fields (some t) ts).tags =
      dictUpdate t "dev-id" dev ∧
    (∀ r : LineResult, create_influxdb_line now_ns dev mname fields (some t) ts = .ok r →
      r.tags = dictUpdate t "dev-id" dev) ∧
    (dictUpdate t "dev-id" dev).lookup "dev-id" = some dev ∧
    (∀ k, k ≠ "dev-id" → (dictUpdate t "dev-id" dev).lookup k = t.lookup k) ∧
    (t.lookup "dev-id" ≠ some dev → dictUpdate t "dev-id" dev ≠ t) := by
  refine ⟨rfl, ?_, dictUpdate_lookup_self t "dev-id" dev, ?_, ?_⟩
  · intro r hr
    cases hcf : convFields fields with
    | error e =>
      rw [create_influxdb_line, hcf] at hr
      cases hr
    | ok cs =>
      rw [create_influxdb_line, hcf] at hr
      cases hr
      rfl
  · intro k hk
    exact dictUpdate_lookup_other t "dev-id" k dev hk
  · intro hne heq
    apply hne
    rw [← heq]
    exact dictUpdate_lookup_self t "dev-id" dev

/-- Witness for C9: a caller dict holding a stale `dev-id` is really
updated in place (and differs from its pre-call contents). -/
theorem C9_tags_mutated_in_place_witness :
    (create_influxdb_dict 0 "NEW" "m" [] (some [("dev-id", "OLD"), ("k", "v")]) none).tags =
      [("dev-id", "NEW"), ("k", "v")] ∧
    dictUpdate [("dev-id", "OLD"), ("k", "v")] "dev-id" "NEW" ≠
      [("dev-id", "OLD"), ("k", "v")] :=
  ⟨((C9_tags_mutated_in_place 0 0 "NEW" "m" [] none [("dev-id", "OLD"), ("k", "v")]).1).trans
      (by with_unfolding_all rfl),
    (C9_tags_mutated_in_place 0 0 "NEW" "m" [] none [("dev-id", "OLD"), ("k", "v")]).2.2.2.2
      (by decide)⟩

/-- C10: on a successful call, `create_influxdb_line` also mutates the
caller's fields dict in place: afterwards (the output's fields component
being the caller's dict after the call) every value has been replaced by
its float coercion while the key list is unchanged. -/
theorem C10_fields_mutated_in_place (now_ns : ℤ) (dev mname : String)
    (fields : List (String × PyVal)) (cs : List (String × ℚ))
    (tags : Option (List (String × String))) (ts : Option ℤ)
    (hc : convFields fields = .ok cs) :
    ∀ r : LineResult, create_influxdb_line now_ns dev mname fields tags ts = .ok r →
      r.fields = fields.map (fun kv => (kv.1, PyVal.floatV (convValD kv.2))) ∧
      r.fields.map Prod.fst = fields.map Prod.fst := by
  intro r hr
  rw [create_influxdb_line, hc] at hr
  cases hr
  constructor
  · show cs.map (fun p => (p.1, PyVal.floatV p.2)) = _
    rw [convFields_eq_ok hc, List.map_map]
    rfl
  · show (cs.map (fun p => (p.1, PyVal.floatV p.2))).map Prod.fst = _
    rw [convFields_eq_ok hc, List.map_map, List.map_map]
    rfl

/-- Witness for C10: an int and a numeric-string field value are both
replaced by their float coercions, keys unchanged. -/
theorem C10_fields_mutated_in_place_witness :
    (⟨"m,dev-id=d a=2.0,b=3.5 0", [("dev-id", "d")],
        [("a", PyVal.floatV 2), ("b", PyVal.floatV (7/2))]⟩ : LineResult).fields =
      [("a", PyVal.intV 2), ("b", PyVal.strV "3.5")].map
        (fun kv => (kv.1, PyVal.floatV (convValD kv.2))) ∧
    (⟨"m,dev-id=d a=2.0,b=3.5 0", [("dev-id", "d")],
        [("a", PyVal.floatV 2), ("b", PyVal.floatV (7/2))]⟩ : LineResult).fields.map
        Prod.fst =
      [("a", PyVal.intV 2), ("b", PyVal.strV "3.5")].map Prod.fst :=
  C10_fields_mutated_in_place 0 "d" "m" [("a", PyVal.intV 2), ("b", PyVal.strV "3.5")]
    [("a", 2), ("b", 7/2)] none (some 0) (by with_unfolding_all rfl)
    ⟨"m,dev-id=d a=2.0,b=3.5 0", [("dev-id", "d")],
      [("a", PyVal.floatV 2), ("b", PyVal.floatV (7/2))]⟩
    (by with_unfolding_all rfl)

end FVHIoT
